import Mathlib

/-!
Verification development for `remora/io.py`: conversion of raw DOLPHOT
photometry output into columnar tables, column-name resolution from a
description file, WCS coordinate augmentation, and the three-way merge of
spatially partitioned catalogs.

The Python source manipulates pandas/vaex dataframes; here every operation is
shallow-embedded over plain lists.  Strings are `String` (lists of characters),
numeric cell values are `ℚ`, missing values are `Option`.  Regex substitution
(only literal patterns and literal alternations occur in the source) is
modelled by an explicit left-to-right single-pass scanner, matching `re.sub`
semantics: at each position the alternatives are tried in order, a match is
replaced and scanning resumes after the replaced text.
-/

attribute [local semireducible] Rat.add Rat.mul Rat.inv Rat.sub Rat.ofScientific

/-! ### Generic string machinery -/

/-- Try to strip `pat` from the front of `l`; return the remainder on success. -/
def dropPre : List Char → List Char → Option (List Char)
  | [], l => some l
  | _ :: _, [] => none
  | p :: ps, c :: cs => if p = c then dropPre ps cs else none

/-- First alternative of `pats` that matches a front of `l` (regex alternation
tries alternatives left to right); returns the remainder after the match. -/
def firstHit (pats : List (List Char)) (l : List Char) : Option (List Char) :=
  match pats with
  | [] => none
  | p :: ps =>
    match dropPre p l with
    | some rest => some rest
    | none => firstHit ps l

/-- One `re.sub` pass: scan left to right, replace each (non-overlapping)
occurrence of any alternative by `rep`, never rescanning replaced text.
`fuel` only forces termination; it is always called with the list length,
which suffices since the patterns used are never empty. -/
def subFuel (pats : List (List Char)) (rep : List Char) : Nat → List Char → List Char
  | 0, l => l
  | _ + 1, [] => []
  | n + 1, c :: cs =>
    match firstHit pats (c :: cs) with
    | some rest => rep ++ subFuel pats rep n rest
    | none => c :: subFuel pats rep n cs

/-- `re.sub` with a literal-alternation pattern, e.g.
`reSub ["Total counts", "Measured counts"] "COUNT"` models the source rule
`'((Total)|(Measured)) counts' -> 'COUNT'`. -/
def reSub (pats : List String) (rep : String) (s : String) : String :=
  String.mk (subFuel (pats.map String.data) rep.data s.data.length s.data)

/-- Split on every occurrence of a (nonempty) literal separator, accumulator
auxiliary.  Fuel as in `subFuel`. -/
def splitOnAuxL (sep : List Char) : Nat → List Char → List Char → List (List Char)
  | 0, acc, l => [acc.reverse ++ l]
  | _ + 1, acc, [] => [acc.reverse]
  | n + 1, acc, c :: cs =>
    match dropPre sep (c :: cs) with
    | some rest => acc.reverse :: splitOnAuxL sep n [] rest
    | none => splitOnAuxL sep n (c :: acc) cs

/-- Split `s` on every occurrence of the literal separator `sep`
(Python `str.split(sep)` / a literal `re`-split, as used by
`pd.read_csv(sep='\. ')` and `Series.str.split`). -/
def splitOnS (s sep : String) : List String :=
  if sep.data.isEmpty then [s]
  else (splitOnAuxL sep.data s.data.length [] s.data).map String.mk

/-- Auxiliary for whitespace splitting. -/
def wsSplitAux : List Char → List Char → List (List Char)
  | acc, [] => [acc.reverse]
  | acc, c :: cs =>
    if c.isWhitespace then acc.reverse :: wsSplitAux [] cs
    else wsSplitAux (c :: acc) cs

/-- Python `str.split()` (no argument): split on whitespace runs, dropping
empty fields. -/
def splitWs (s : String) : List String :=
  ((wsSplitAux [] s.data).filter (fun w => !w.isEmpty)).map String.mk

/-- Strip leading and trailing whitespace (Python `str.strip()`). -/
def trimL (l : List Char) : List Char :=
  ((l.dropWhile Char.isWhitespace).reverse.dropWhile Char.isWhitespace).reverse

/-- Strip leading and trailing whitespace (Python `str.strip()`). -/
def trimS (s : String) : String := String.mk (trimL s.data)

/-- Python `str.upper()` on the ASCII text occurring in DOLPHOT files. -/
def upperS (s : String) : String := String.mk (s.data.map Char.toUpper)

/-- The source's `.str.replace('^_', '')`: the anchored pattern matches at most
once, removing a single leading underscore. -/
def stripLeadUnd (s : String) : String :=
  match s.data with
  | '_' :: rest => String.mk rest
  | _ => s

/-- Substring containment (`Series.str.contains` with an escaped pattern). -/
def hasSubstr (s pat : String) : Bool := (splitOnS s pat).length != 1

/-- Python `str.endswith`. -/
def endsWithS (s suf : String) : Bool := suf.data.isSuffixOf s.data

/-! ### Column-name resolver (`read_colfile`)

`read_colfile` reads lines `"<index>. <description>"` with
`pd.read_csv(sep='\. ', names=['desc'], index_col=0, engine='python')`, so a
line splits on every `'. '`; the first field becomes the index and the second
the description.  A line with a single field is padded: its description is
missing (NaN).  (pandas would build a MultiIndex from a line with three or
more `'. '` fields; such lines never occur in DOLPHOT column files and no
claim concerns them, so the model keeps the first two fields.  pandas parses
an all-numeric index column to integers; the model keeps the textual form,
which no claim inspects arithmetically.) -/

/-- One parsed line of the column-description file. -/
structure ColRow where
  idx : String
  desc : Option String

/-- Parse one line of the `.columns` file, as `pd.read_csv(sep='\. ')` does. -/
def parseColLine (line : String) : ColRow :=
  match splitOnS line ". " with
  | [] => ⟨line, none⟩
  | [f] => ⟨f, none⟩
  | f :: d :: _ => ⟨f, some d⟩

/-- The ordered `replace_single` substitution table applied to the raw short
name, rule after rule, in the dictionary's insertion order (each rule is one
`Series.replace(re.compile(k), v)` pass). -/
def applySingleRules (s : String) : String :=
  reSub ["Photometry quality flag"] "FLAG"
    (reSub ["Magnitude uncertainty"] "ERR"
      (reSub ["Transformed UBVRI magnitude"] "TRANS"
        (reSub ["Instrumental VEGAMAG magnitude"] "VEGA"
          (reSub ["Normalized count rate"] "RATE"
            (reSub ["Normalized count rate uncertainty"] "RATERR"
              (reSub ["Total sky level", "Measured sky level"] "SKY"
                (reSub ["Total counts", "Measured counts"] "COUNT" s)))))))

/-- The ordered `replace_global` substitution table, applied (in the source)
to the concatenation of all short names, single and global alike. -/
def applyGlobalRules (s : String) : String :=
  reSub ["ness", "ing"] "" (reSub ["Signal-to-noise"] "SNR" s)

/-- Classification: the text before the first `' ('` contains `', '`
(`is_single` mask in the source). -/
def is_single (desc : String) : Bool :=
  hasSubstr ((splitOnS desc " (").headD "") ", "

/-- GLOBAL raw short name: drop the literal `'Object'`, strip, first
whitespace-delimited token (`str[0]` is NaN when no token remains). -/
def nameGlobal (desc : String) : Option String :=
  (splitWs (trimS (reSub ["Object"] "" desc))).head?

/-- SINGLE prefix: second `', '`-field, its first whitespace token, with the
literal `'.chip'` rewritten to `'_chip'`; NaN when either piece is missing. -/
def preSingle (desc : String) : Option String :=
  (((splitOnS desc ", ").get? 1).bind (fun seg => (splitWs seg).head?)).map
    (fun tok => reSub [".chip"] "_chip" tok)

/-- Canonical name of one description, following the source column by column:
short names (single via `replace_single`, global via `'Object'` removal),
then `replace_global` over all of them, then
`prefix_concat.str.cat(names_concat.str.upper(), sep='_').str.replace('^_', '')`.
`str.cat` propagates NaN, hence the `Option`. -/
def resolveDesc (desc : String) : Option String :=
  if is_single desc then
    (preSingle desc).map (fun p =>
      stripLeadUnd (p ++ "_" ++
        upperS (applyGlobalRules (applySingleRules ((splitOnS desc ", ").headD "")))))
  else
    (nameGlobal desc).map (fun tok =>
      stripLeadUnd ("" ++ "_" ++ upperS (applyGlobalRules tok)))

/-- `read_colfile` over the list of lines of the `.columns` file.  Before any
name is computed the source evaluates `df_col.loc[is_single]`; when some
description is missing (a line without a `'. '` separator) the boolean mask
contains NaN and pandas aborts with the generic masking `ValueError`, which
never mentions the offending line.  Otherwise the result keeps the file's
order and pairs each index with its (possibly missing) canonical name. -/
def read_colfile (lines : List String) : Except String (List (String × Option String)) :=
  let rows := lines.map parseColLine
  if rows.all (fun r => r.desc.isSome) then
    Except.ok (rows.map (fun r => (r.idx, r.desc.bind resolveDesc)))
  else
    Except.error "Cannot mask with non-boolean array containing NA / NaN values"

/-- The SINGLE naming procedure exactly as claim C1 states it: split on
`', '`, first segment the raw short name, prefix from the second segment
(first whitespace token, `'.chip'` to `'_chip'`), the eight SINGLE rules in
order, uppercase, join `prefix ++ "_" ++ shortname`.  (No global
substitutions, no underscore handling: the claim mentions neither.) -/
def claimSingleName (desc : String) : Option String :=
  match splitOnS desc ", " with
  | raw :: seg :: _ =>
    match splitWs seg with
    | tok :: _ => some (reSub [".chip"] "_chip" tok ++ "_" ++ upperS (applySingleRules raw))
    | [] => none
  | _ => none

/-- The GLOBAL naming procedure exactly as claim C5 states it: first
whitespace token after removing the word `"Object"` and trimming, uppercased.
(No global substitutions: the claim mentions none.) -/
def claimGlobalName (desc : String) : Option String :=
  ((splitWs (trimS (reSub ["Object"] "" desc))).head?).map upperS

/-! ### Table loader (`ascii_to_vaex`) -/

/-- pandas' default NA strings (`keep_default_na=True`). -/
def default_na : List String :=
  ["", "#N/A", "#N/A N/A", "#NA", "-1.#IND", "-1.#QNAN", "-NaN", "-nan",
   "1.#IND", "1.#QNAN", "<NA>", "N/A", "NA", "NULL", "NaN", "None",
   "n/a", "nan", "null"]

/-- The NA strings in effect: the defaults plus the source's
`na_values=['99.999']` sentinel. -/
def na_values : List String := default_na ++ ["99.999"]

/-- Value of a nonempty all-digit character list. -/
def decDigits (cs : List Char) : Option Nat :=
  if cs.isEmpty then none
  else if cs.all Char.isDigit then
    some (cs.foldl (fun a c => a * 10 + (c.toNat - 48)) 0)
  else none

/-- Plain decimal notation `ddd[.ddd]` (also `ddd.` and `.ddd`), the number
format DOLPHOT photometry files contain.  (Scientific notation never occurs
in them and is outside the modelled fragment.) -/
def parseUnsigned (body : String) : Option ℚ :=
  match splitOnS body "." with
  | [ip] => (decDigits ip.data).map (fun n => (n : ℚ))
  | [ip, fp] =>
    if (ip.data.all Char.isDigit && fp.data.all Char.isDigit)
        && !(ip.data.isEmpty && fp.data.isEmpty) then
      some ((ip.data.foldl (fun a c => a * 10 + (c.toNat - 48)) 0 : ℚ) +
        (fp.data.foldl (fun a c => a * 10 + (c.toNat - 48)) 0 : ℚ) /
          ((10 : ℚ) ^ fp.data.length))
    else none
  | _ => none

/-- Signed decimal. -/
def parseDecimal (s : String) : Option ℚ :=
  match s.data with
  | '-' :: rest => (parseUnsigned (String.mk rest)).map (fun q => -q)
  | '+' :: rest => parseUnsigned (String.mk rest)
  | _ => parseUnsigned s

/-- One whitespace-delimited cell: NA strings (in particular the `99.999`
sentinel) become missing, anything else is read as a number. -/
def parseCell (s : String) : Option ℚ :=
  if na_values.contains s then none else parseDecimal s

/-- The source's compression choice:
`'gzip' if asciifile.endswith('gz') else 'infer'`. -/
def asciiCompression (asciifile : String) : String :=
  if endsWithS asciifile "gz" then "gzip" else "infer"

/-- `ascii_to_vaex`: whitespace-delimited rows, `names` assigned to the
selected raw column offsets (`usecols`, defaulting to `range(len(names))`).
The result is the columnar table: each selected column under its name. -/
def ascii_to_vaex (lines : List String) (names : List String)
    (usecols : Option (List Nat)) : List (String × List (Option ℚ)) :=
  let cs := usecols.getD (List.range names.length)
  (names.zip cs).map (fun nc =>
    (nc.1, lines.map (fun line => (splitWs line)[nc.2]?.bind parseCell)))

/-! ### Catalog merger (`calc_xmed`, `merge_parallel_phot`) -/

/-- Python 3 `round` to the nearest integer, ties to the even integer. -/
def pyRound (q : ℚ) : ℤ :=
  if q - ⌊q⌋ < 1 / 2 then ⌊q⌋
  else if 1 / 2 < q - ⌊q⌋ then ⌊q⌋ + 1
  else if ⌊q⌋ % 2 = 0 then ⌊q⌋ else ⌊q⌋ + 1

/-- `calc_xmed`: `int(round((ds_right.X.min() + ds_left.X.max()) / 2))`, on
the X columns; `min`/`max` of an empty column is undefined (NaN). -/
def calc_xmed (dsLeftX dsRightX : List ℚ) : Option ℤ :=
  match dsRightX.min?, dsLeftX.max? with
  | some mn, some mx => some (pyRound ((mn + mx) / 2))
  | _, _ => none

/-- `DataFrame.select(expr, name='__filter__')`: a boolean mask over the rows
(vaex stores the filter as a selection named `'__filter__'`). -/
def vaexSelect {α : Type} (p : α → Bool) (t : List α) : List (α × Bool) :=
  t.map (fun r => (r, p r))

/-- `DataFrame.extract()`: the rows where the filter mask holds, in order. -/
def vaexExtract {α : Type} (t : List (α × Bool)) : List α :=
  (t.filter (fun rb => rb.2)).map (fun rb => rb.1)

/-- `merge_parallel_phot` up to and including the concatenation: cut points
from `calc_xmed`, then `X <= x0` on table 1, `select_box(['X'], [[x0, x1]])`
(inclusive on both sides, on the sorted limits) on table 2, `X >= x1` on
table 3, and `DataFrameConcatenated` of the three extracts.  Rows are any
type `α` with an X coordinate `x`; the subsequent `add_wcs` only recomputes
columns and is modelled separately. -/
def merge_parallel_phot {α : Type} (x : α → ℚ) (t1 t2 t3 : List α) :
    Option (List α) :=
  match calc_xmed (t1.map x) (t2.map x), calc_xmed (t2.map x) (t3.map x) with
  | some x0, some x1 =>
    let s1 := vaexSelect (fun r => decide (x r ≤ (x0 : ℚ))) t1
    let s2 := vaexSelect (fun r =>
      decide (min (x0 : ℚ) (x1 : ℚ) ≤ x r) && decide (x r ≤ max (x0 : ℚ) (x1 : ℚ))) t2
    let s3 := vaexSelect (fun r => decide ((x1 : ℚ) ≤ x r)) t3
    some (vaexExtract s1 ++ vaexExtract s2 ++ vaexExtract s3)
  | _, _ => none

/-! ### Coordinate augmenter (`add_wcs`)

A vaex dataframe, for the purposes of the column-structure claims, is its
ordered list of named columns.  The external astrometric transform
(`conv_pix_wcs`, astropy `all_pix2world` at `origin=1` on the field's WCS
sidecar file) is an opaque per-row map `wcs : ℚ → ℚ → ℚ × ℚ`. -/

abbrev VaexDF := List (String × List ℚ)

/-- `DataFrame.get_column_names()`. -/
def get_column_names (ds : VaexDF) : List String := ds.map (fun c => c.1)

/-- `DataFrame.drop(name, inplace=True, check=False)`. -/
def dropCol (ds : VaexDF) (n : String) : VaexDF := ds.filter (fun c => c.1 != n)

/-- `DataFrame.add_column(name, values)` (appended at the end). -/
def add_column (ds : VaexDF) (n : String) (v : List ℚ) : VaexDF := ds ++ [(n, v)]

/-- Column lookup by name. -/
def getCol (ds : VaexDF) (n : String) : Option (List ℚ) :=
  (ds.find? (fun c => c.1 == n)).map (fun c => c.2)

/-- `ds[names]`: the named columns, in the given order. -/
def selectNames (ds : VaexDF) (ns : List String) : VaexDF :=
  ns.filterMap (fun n => (getCol ds n).map (fun v => (n, v)))

/-- The `firstcols` default argument of `add_wcs`. -/
def firstcols : List String := ["RA", "DEC", "X", "Y"]

/-- `add_wcs(ds, base)`: drop pre-existing RA/DEC in place, evaluate X and Y,
append the freshly computed RA and DEC columns in place, and return the
reordered view `ds[firstcols + [n for n in ds.get_column_names() if n not in
firstcols]]`.  The result pairs the final state of the mutated input with the
returned view; it is `none` when the table has no X or Y column (vaex would
raise). -/
def add_wcs (wcs : ℚ → ℚ → ℚ × ℚ) (ds : VaexDF) : Option (VaexDF × VaexDF) :=
  let ds1 := if "RA" ∈ get_column_names ds then dropCol ds "RA" else ds
  let ds2 := if "DEC" ∈ get_column_names ds1 then dropCol ds1 "DEC" else ds1
  match getCol ds2 "X", getCol ds2 "Y" with
  | some xs, some ys =>
    let ra := List.zipWith (fun a b => (wcs a b).1) xs ys
    let dec := List.zipWith (fun a b => (wcs a b).2) xs ys
    let ds3 := add_column (add_column ds2 "RA" ra) "DEC" dec
    let ns := firstcols ++ (get_column_names ds3).filter (fun n => !(firstcols.contains n))
    some (ds3, selectNames ds3 ns)
  | _, _ => none

deriving instance DecidableEq for Except

/-! ### Bridging lemmas -/

theorem dataAppendS (s t : String) : (s ++ t).data = s.data ++ t.data := by
  cases s; cases t; rfl

theorem stripLeadUnd_und (s : String) : stripLeadUnd ("" ++ "_" ++ s) = s := by
  have h : ("" ++ "_" ++ s).data = '_' :: s.data := by
    rw [dataAppendS, dataAppendS]; rfl
  unfold stripLeadUnd
  split
  · rename_i rest heq
    rw [h] at heq
    injection heq with _ h2
    rw [← h2]
  · rename_i hno
    exact absurd h (hno s.data)

theorem stripLeadUnd_ne (u : String) (c : Char) (l : List Char)
    (hu : u.data = c :: l) (hc : c ≠ '_') : stripLeadUnd u = u := by
  unfold stripLeadUnd
  split
  · rename_i rest heq
    rw [hu] at heq
    injection heq with h1 _
    exact absurd h1 hc
  · rfl

/-! ### Claims C1 and C5: canonical names -/

/-- Claim C1 (corrected), counterexample: for the SINGLE line
`"6. Crowding, F475W.chip1"` the claimed procedure (split, prefix, the eight
SINGLE rules in order, uppercase, join) yields `F475W_chip1_CROWDING`, but the
resolver also applies the global substitution table (which deletes `ing`) and
produces `F475W_chip1_CROWD`. -/
theorem c1_cex :
    is_single "Crowding, F475W.chip1" = true ∧
    resolveDesc "Crowding, F475W.chip1" = some "F475W_chip1_CROWD" ∧
    claimSingleName "Crowding, F475W.chip1" = some "F475W_chip1_CROWDING" ∧
    resolveDesc "Crowding, F475W.chip1" ≠ claimSingleName "Crowding, F475W.chip1" ∧
    read_colfile ["6. Crowding, F475W.chip1"] =
      Except.ok [("6", some "F475W_chip1_CROWD")] := by
  decide

/-- Claim C1 (amended): for every SINGLE-classified description, the resolver
splits on `", "`, takes the first segment as the raw short name and the second
segment's first whitespace token (with `".chip"` rewritten to `"_chip"`) as
the prefix, applies the eight SINGLE substitution rules in their fixed order
and then the two global rules (`Signal-to-noise` to `SNR`, deletion of `ness`
and `ing`), uppercases, and joins as prefix `++ "_" ++` shortname (a leading
underscore would be stripped; the hypotheses state the prefix is nonempty and
does not start with one).  In particular `"5. Measured counts, F475W.chip1"`
resolves to `F475W_chip1_COUNT`. -/
theorem c1_single_naming (desc raw seg tok : String) (rest toks : List String)
    (hsingle : is_single desc = true)
    (hsplit : splitOnS desc ", " = raw :: seg :: rest)
    (htok : splitWs seg = tok :: toks)
    (hne : (reSub [".chip"] "_chip" tok).data ≠ [])
    (hhd : (reSub [".chip"] "_chip" tok).data.head? ≠ some '_') :
    resolveDesc desc =
      some (reSub [".chip"] "_chip" tok ++ "_" ++
        upperS (applyGlobalRules (applySingleRules raw))) ∧
    read_colfile ["5. Measured counts, F475W.chip1"] =
      Except.ok [("5", some "F475W_chip1_COUNT")] := by
  refine ⟨?_, by decide⟩
  unfold resolveDesc preSingle
  rw [hsplit]
  simp only [hsingle, if_true, List.get?_cons_succ, List.get?_cons_zero,
    Option.some_bind, List.headD_cons]
  rw [htok]
  simp only [List.head?_cons, Option.map_some']
  cases hdata : (reSub [".chip"] "_chip" tok).data with
  | nil => exact absurd hdata hne
  | cons c l =>
    have hc : c ≠ '_' := by
      intro hceq
      exact hhd (by rw [hdata, hceq]; rfl)
    have hu : (reSub [".chip"] "_chip" tok ++ "_" ++
        upperS (applyGlobalRules (applySingleRules raw))).data =
        c :: (l ++ '_' :: (upperS (applyGlobalRules (applySingleRules raw))).data) := by
      rw [dataAppendS, dataAppendS, hdata]
      simp
    rw [stripLeadUnd_ne _ c _ hu hc]

/-- Claim C1 witness: the amended naming rule applied to the concrete line
`"Measured counts, F475W.chip1"`. -/
theorem c1_witness :
    (is_single "Measured counts, F475W.chip1" = true ∧
     splitOnS "Measured counts, F475W.chip1" ", " = ["Measured counts", "F475W.chip1"] ∧
     splitWs "F475W.chip1" = ["F475W.chip1"]) ∧
    resolveDesc "Measured counts, F475W.chip1" =
      some (reSub [".chip"] "_chip" "F475W.chip1" ++ "_" ++
        upperS (applyGlobalRules (applySingleRules "Measured counts"))) :=
  ⟨⟨by decide, by decide, by decide⟩,
    (c1_single_naming "Measured counts, F475W.chip1" "Measured counts" "F475W.chip1"
      "F475W.chip1" [] [] (by decide) (by decide) (by decide) (by decide) (by decide)).1⟩

/-- Claim C5 (corrected), counterexample: for the GLOBAL line
`"3. Sharpness"` the claimed rule (first token after removing `"Object"` and
trimming, uppercased) yields `SHARPNESS`, but the resolver also applies the
global substitution table (which deletes `ness`) and produces `SHARP`. -/
theorem c5_cex :
    is_single "Sharpness" = false ∧
    resolveDesc "Sharpness" = some "SHARP" ∧
    claimGlobalName "Sharpness" = some "SHARPNESS" ∧
    resolveDesc "Sharpness" ≠ claimGlobalName "Sharpness" ∧
    read_colfile ["3. Sharpness"] = Except.ok [("3", some "SHARP")] := by
  decide

/-- Claim C5 (amended): for every GLOBAL-classified description, the canonical
name is the first whitespace token left after removing the word `"Object"` and
trimming, passed through the two global substitution rules and uppercased,
with no prefix and no leading underscore; in particular `"12. Object X"`
resolves to `X` (not `_X`). -/
theorem c5_global_naming (desc tok : String) (toks : List String)
    (hglobal : is_single desc = false)
    (htok : splitWs (trimS (reSub ["Object"] "" desc)) = tok :: toks) :
    resolveDesc desc = some (upperS (applyGlobalRules tok)) ∧
    read_colfile ["12. Object X"] = Except.ok [("12", some "X")] := by
  refine ⟨?_, by decide⟩
  unfold resolveDesc nameGlobal
  rw [htok]
  simp only [hglobal, Bool.false_eq_true, if_false, List.head?_cons, Option.map_some']
  rw [stripLeadUnd_und]

/-- Claim C5 witness: the amended global naming rule at the concrete
description `"Object X"`. -/
theorem c5_witness :
    (is_single "Object X" = false ∧
     splitWs (trimS (reSub ["Object"] "" "Object X")) = ["X"]) ∧
    resolveDesc "Object X" = some (upperS (applyGlobalRules "X")) :=
  ⟨⟨by decide, by decide⟩,
    (c5_global_naming "Object X" "X" [] (by decide) (by decide)).1⟩

/-! ### Claim C8: malformed description lines -/

/-- Claim C8 (corrected), counterexample: the malformed line
`"abc. Object X"` (non-numeric index) does not make the resolver fail at all,
let alone with a ParseError: it is silently accepted, keeping the non-numeric
index. -/
theorem c8_cex :
    read_colfile ["abc. Object X"] = Except.ok [("abc", some "X")] := by
  decide

/-- Claim C8 (amended): a line with no `". "` separator is parsed with a
missing description, which makes `read_colfile` abort — but with pandas'
generic masking error, which does not report the offending line content —
while a line with a non-numeric index is silently accepted as-is. -/
theorem c8_malformed_lines :
    (parseColLine "garbage").desc = none ∧
    read_colfile ["1. Object X", "garbage"] =
      Except.error "Cannot mask with non-boolean array containing NA / NaN values" ∧
    read_colfile ["abc. Object X"] = Except.ok [("abc", some "X")] := by
  decide

/-! ### Claim C9: compression detection -/

/-- Claim C9 (corrected), counterexample: the path `"m33_1.photgz"` does not
end with the extension `".gz"`, yet the loader selects explicit gzip
decompression for it (the source tests `endswith('gz')`, with no dot). -/
theorem c9_cex :
    asciiCompression "m33_1.photgz" = "gzip" ∧
    endsWithS "m33_1.photgz" ".gz" = false := by
  decide

/-- Claim C9 (amended): the loader applies explicit gzip decompression exactly
when the source path ends with the two characters `"gz"` (no dot required);
otherwise it passes compression `"infer"`, leaving detection to the reader. -/
theorem c9_compression_rule (path : String) :
    (asciiCompression path = "gzip" ↔ ∃ t : String, path = t ++ "gz") ∧
    (asciiCompression path ≠ "gzip" → asciiCompression path = "infer") := by
  constructor
  · constructor
    · intro h
      by_cases hb : endsWithS path "gz" = true
      · unfold endsWithS at hb
        rw [List.isSuffixOf_iff_suffix] at hb
        obtain ⟨l, hl⟩ := hb
        refine ⟨String.mk l, ?_⟩
        apply String.ext
        rw [dataAppendS]
        exact hl.symm
      · unfold asciiCompression at h
        rw [if_neg hb] at h
        exact absurd h (by decide)
    · rintro ⟨t, rfl⟩
      unfold asciiCompression
      rw [if_pos ?_]
      unfold endsWithS
      rw [List.isSuffixOf_iff_suffix, dataAppendS]
      exact List.suffix_append t.data _
  · intro h
    unfold asciiCompression at h ⊢
    by_cases hb : endsWithS path "gz" = true
    · rw [if_pos hb] at h
      exact absurd rfl h
    · rw [if_neg hb]

/-! ### Merge lemmas -/

theorem vaexExtract_vaexSelect {α : Type} (p : α → Bool) (t : List α) :
    vaexExtract (vaexSelect p t) = t.filter p := by
  induction t with
  | nil => rfl
  | cons a t ih =>
    cases hpa : p a <;>
      simp only [vaexSelect, vaexExtract, List.map_cons, List.filter_cons, hpa,
        Bool.false_eq_true, if_false, if_true] at ih ⊢ <;>
      simpa [vaexSelect, vaexExtract] using ih

theorem pyRound_dist (q : ℚ) : |(pyRound q : ℚ) - q| ≤ 1 / 2 := by
  have h1 : (⌊q⌋ : ℚ) ≤ q := Int.floor_le q
  have h2 : q < ⌊q⌋ + 1 := Int.lt_floor_add_one q
  unfold pyRound
  split_ifs with hlt hgt hev
  all_goals rw [abs_le]; constructor <;> push_cast <;> linarith

theorem pyRound_nearest (q : ℚ) (z : ℤ) :
    |(pyRound q : ℚ) - q| ≤ |(z : ℚ) - q| := by
  by_cases hz : z = pyRound q
  · rw [hz]
  · have hzero : z - pyRound q ≠ 0 := sub_ne_zero.mpr hz
    have habs := Int.one_le_abs hzero
    have h1 : (1 : ℚ) ≤ |(z : ℚ) - (pyRound q : ℚ)| := by
      have : ((|z - pyRound q| : ℤ) : ℚ) = |(z : ℚ) - (pyRound q : ℚ)| := by
        push_cast
        ring_nf
      rw [← this]
      exact_mod_cast habs
    have h2 := pyRound_dist q
    have h3 : |(z : ℚ) - (pyRound q : ℚ)| ≤ |(z : ℚ) - q| + |q - (pyRound q : ℚ)| :=
      abs_sub_le _ _ _
    have h4 : |q - (pyRound q : ℚ)| = |(pyRound q : ℚ) - q| := abs_sub_comm _ _
    linarith

theorem pyRound_intCast (k : ℤ) : pyRound ((k : ℚ)) = k := by
  unfold pyRound
  rw [Int.floor_intCast]
  norm_num

/-! ### Claims C2, C3, C4: the three-way merge -/

/-- Claim C2 (confirmed): with both cut points defined (all three X columns
nonempty) and `x0 ≤ x1`, the merge keeps exactly the rows of table 1 with
`X ≤ x0`, the rows of table 2 with `x0 ≤ X ≤ x1` (closed on both ends), and
the rows of table 3 with `X ≥ x1`, concatenated in the order
table1, table2, table3 with the original row order inside each part. -/
theorem c2_merge_keeps_exactly {α : Type} (x : α → ℚ) (t1 t2 t3 : List α)
    (x0 x1 : ℤ)
    (h0 : calc_xmed (t1.map x) (t2.map x) = some x0)
    (h1 : calc_xmed (t2.map x) (t3.map x) = some x1)
    (hle : (x0 : ℚ) ≤ (x1 : ℚ)) :
    merge_parallel_phot x t1 t2 t3 =
      some (t1.filter (fun r => decide (x r ≤ (x0 : ℚ))) ++
        t2.filter (fun r => decide ((x0 : ℚ) ≤ x r) && decide (x r ≤ (x1 : ℚ))) ++
        t3.filter (fun r => decide ((x1 : ℚ) ≤ x r))) := by
  unfold merge_parallel_phot
  rw [h0, h1]
  simp only [vaexExtract_vaexSelect, min_eq_left hle, max_eq_right hle]

/-- Claim C2 witness: the spec's own example tables `[1,5,10]`, `[8,12,20]`,
`[18,25,30]` with cut points `x0 = 9`, `x1 = 19`. -/
theorem c2_witness :
    (calc_xmed ([(1 : ℚ), 5, 10].map id) ([(8 : ℚ), 12, 20].map id) = some 9 ∧
     calc_xmed ([(8 : ℚ), 12, 20].map id) ([(18 : ℚ), 25, 30].map id) = some 19 ∧
     (((9 : ℤ) : ℚ) ≤ ((19 : ℤ) : ℚ))) ∧
    merge_parallel_phot id [(1 : ℚ), 5, 10] [(8 : ℚ), 12, 20] [(18 : ℚ), 25, 30] =
      some ([(1 : ℚ), 5, 10].filter (fun r => decide (id r ≤ ((9 : ℤ) : ℚ))) ++
        [(8 : ℚ), 12, 20].filter
          (fun r => decide (((9 : ℤ) : ℚ) ≤ id r) && decide (id r ≤ ((19 : ℤ) : ℚ))) ++
        [(18 : ℚ), 25, 30].filter (fun r => decide (((19 : ℤ) : ℚ) ≤ id r))) :=
  ⟨⟨by decide, by decide, by decide⟩,
    c2_merge_keeps_exactly id [(1 : ℚ), 5, 10] [(8 : ℚ), 12, 20] [(18 : ℚ), 25, 30]
      9 19 (by decide) (by decide) (by decide)⟩

/-- Claim C3 (corrected), counterexample: tagged rows `(X, tag)`; table 1 is
`[(1,10), (10,11)]` and table 2 is `[(10,20), (20,21)]`, so table 1's maximum
X equals table 2's minimum X (both 10 = x0).  The merged output contains both
the table-1 row `(10,11)` and the table-2 row `(10,20)`: the row at the shared
boundary value is emitted from both tables, so the merge is not a
non-overlapping partition. -/
theorem c3_cex :
    merge_parallel_phot Prod.fst
        [((1 : ℚ), (10 : ℕ)), (10, 11)] [(10, 20), (20, 21)] [(30, 30)] =
      some [((1 : ℚ), (10 : ℕ)), (10, 11), (10, 20), (20, 21), (30, 30)] ∧
    ([((1 : ℚ), (10 : ℕ)), (10, 11)].map Prod.fst).max? = some 10 ∧
    ([((10 : ℚ), (20 : ℕ)), (20, 21)].map Prod.fst).min? = some 10 ∧
    ((10 : ℚ), (11 : ℕ)) ∈ [((1 : ℚ), (10 : ℕ)), (10, 11)] ∧
    ((10 : ℚ), (20 : ℕ)) ∈ [((10 : ℚ), (20 : ℕ)), (20, 21)] ∧
    ((10 : ℚ), (11 : ℕ)) ∈ [((1 : ℚ), (10 : ℕ)), (10, 11), (10, 20), (20, 21), (30, 30)] ∧
    ((10 : ℚ), (20 : ℕ)) ∈ [((1 : ℚ), (10 : ℕ)), (10, 11), (10, 20), (20, 21), (30, 30)] := by
  decide

/-- Claim C3 (amended): every row of the merged table does come from one of
the three input tables, but the selection is not exclusive at the cut points:
when table 1's maximum X equals table 2's minimum X at an integer value `k`
(so that `x0 = k`) and `k` does not exceed the second cut point, a table-1 row
with `X = k` and a table-2 row with `X = k` are both emitted. -/
theorem c3_provenance_and_boundary {α : Type} (x : α → ℚ) (t1 t2 t3 out : List α)
    (h : merge_parallel_phot x t1 t2 t3 = some out) :
    (∀ r ∈ out, r ∈ t1 ∨ r ∈ t2 ∨ r ∈ t3) ∧
    (∀ (k x1v : ℤ) (r1 r2 : α),
      (t1.map x).max? = some ((k : ℚ)) → (t2.map x).min? = some ((k : ℚ)) →
      calc_xmed (t2.map x) (t3.map x) = some x1v → ((k : ℚ)) ≤ ((x1v : ℚ)) →
      r1 ∈ t1 → x r1 = ((k : ℚ)) → r2 ∈ t2 → x r2 = ((k : ℚ)) →
      r1 ∈ out ∧ r2 ∈ out) := by
  rcases e0 : calc_xmed (t1.map x) (t2.map x) with _ | x0
  · rw [merge_parallel_phot, e0] at h
    exact absurd h (by simp)
  rcases e1 : calc_xmed (t2.map x) (t3.map x) with _ | x1
  · rw [merge_parallel_phot, e0, e1] at h
    exact absurd h (by simp)
  rw [merge_parallel_phot, e0, e1] at h
  simp only [vaexExtract_vaexSelect, Option.some.injEq] at h
  subst h
  constructor
  · intro r hr
    simp only [List.mem_append, List.mem_filter] at hr
    rcases hr with (⟨hm, _⟩ | ⟨hm, _⟩) | ⟨hm, _⟩
    · exact Or.inl hm
    · exact Or.inr (Or.inl hm)
    · exact Or.inr (Or.inr hm)
  · intro k x1v r1 r2 hmax hmin hcx hkle h1m hx1 h2m hx2
    have hx0 : x0 = k := by
      have e0k : calc_xmed (t1.map x) (t2.map x) = some k := by
        rw [calc_xmed, hmin, hmax]
        show some (pyRound (((k : ℚ) + (k : ℚ)) / 2)) = some k
        have harith : ((k : ℚ) + (k : ℚ)) / 2 = ((k : ℚ)) := by ring
        rw [harith, pyRound_intCast]
      rw [e0] at e0k
      exact Option.some.inj e0k
    have hx1v : x1 = x1v := Option.some.inj hcx
    rw [← hx0] at hx1 hx2 hkle
    rw [← hx1v] at hkle
    constructor
    · simp only [List.mem_append, List.mem_filter]
      exact Or.inl (Or.inl ⟨h1m, by simp [hx1]⟩)
    · simp only [List.mem_append, List.mem_filter]
      refine Or.inl (Or.inr ⟨h2m, ?_⟩)
      have hminle : min ((x0 : ℚ)) ((x1 : ℚ)) ≤ x r2 := by
        rw [hx2]; exact min_le_left _ _
      have hmaxge : x r2 ≤ max ((x0 : ℚ)) ((x1 : ℚ)) := by
        rw [hx2]; exact le_trans hkle (le_max_right _ _)
      simp [hminle, hmaxge]

/-- Claim C3 witness: the amended statement applied to the concrete boundary
tables of the counterexample, showing both boundary rows in the output. -/
theorem c3_witness :
    (merge_parallel_phot Prod.fst
        [((1 : ℚ), (10 : ℕ)), (10, 11)] [(10, 20), (20, 21)] [(30, 30)] =
      some [((1 : ℚ), (10 : ℕ)), (10, 11), (10, 20), (20, 21), (30, 30)]) ∧
    (((10 : ℚ), (11 : ℕ)) ∈
        [((1 : ℚ), (10 : ℕ)), (10, 11), (10, 20), (20, 21), (30, 30)] ∧
      ((10 : ℚ), (20 : ℕ)) ∈
        [((1 : ℚ), (10 : ℕ)), (10, 11), (10, 20), (20, 21), (30, 30)]) :=
  ⟨by decide,
    (c3_provenance_and_boundary Prod.fst
        [((1 : ℚ), (10 : ℕ)), (10, 11)] [(10, 20), (20, 21)] [(30, 30)]
        [((1 : ℚ), (10 : ℕ)), (10, 11), (10, 20), (20, 21), (30, 30)]
        (by decide)).2
      10 25 ((10 : ℚ), (11 : ℕ)) ((10 : ℚ), (20 : ℕ))
      (by decide) (by decide) (by decide) (by decide)
      (by decide) (by decide) (by decide) (by decide)⟩

/-- Claim C4 (confirmed): the merge cut point for two adjacent catalogs is
`round((min(X in right) + max(X in left)) / 2)`, the arithmetic mean of the
right table's minimum X and the left table's maximum X rounded to a nearest
integer (at most 1/2 away, and no other integer is closer; Python rounds
half-to-even).  `merge_parallel_phot` computes `x0` and `x1` as exactly this
`calc_xmed` on (table1, table2) and (table2, table3). -/
theorem c4_cut_point_is_rounded_mean (xsL xsR : List ℚ) (a b : ℚ)
    (hmin : xsR.min? = some a) (hmax : xsL.max? = some b) :
    calc_xmed xsL xsR = some (pyRound ((a + b) / 2)) ∧
    |(pyRound ((a + b) / 2) : ℚ) - (a + b) / 2| ≤ 1 / 2 ∧
    (∀ z : ℤ, |(pyRound ((a + b) / 2) : ℚ) - (a + b) / 2| ≤ |(z : ℚ) - (a + b) / 2|) := by
  refine ⟨?_, pyRound_dist _, fun z => pyRound_nearest _ z⟩
  rw [calc_xmed, hmin, hmax]

/-- Claim C4 witness: the spec's example, `x0 = round((8 + 10) / 2) = 9`. -/
theorem c4_witness :
    ([(8 : ℚ), 12, 20].min? = some 8 ∧ [(1 : ℚ), 5, 10].max? = some 10) ∧
    (calc_xmed [(1 : ℚ), 5, 10] [(8 : ℚ), 12, 20] = some (pyRound ((8 + 10) / 2)) ∧
     |(pyRound (((8 : ℚ) + 10) / 2) : ℚ) - ((8 : ℚ) + 10) / 2| ≤ 1 / 2 ∧
     (∀ z : ℤ, |(pyRound (((8 : ℚ) + 10) / 2) : ℚ) - ((8 : ℚ) + 10) / 2| ≤
        |(z : ℚ) - ((8 : ℚ) + 10) / 2|)) :=
  ⟨⟨by decide, by decide⟩,
    c4_cut_point_is_rounded_mean [(1 : ℚ), 5, 10] [(8 : ℚ), 12, 20] 8 10
      (by decide) (by decide)⟩

/-! ### Column-table lemmas for `add_wcs` -/

theorem names_dropCol (ds : VaexDF) (n : String) :
    get_column_names (dropCol ds n) = (get_column_names ds).filter (fun m => m != n) := by
  induction ds with
  | nil => rfl
  | cons c t ih =>
    simp only [dropCol, get_column_names, List.filter_cons, List.map_cons] at ih ⊢
    cases hc : (c.1 != n) <;> simp [hc, ih]

theorem names_dropIf (ds : VaexDF) (n : String) :
    get_column_names (if n ∈ get_column_names ds then dropCol ds n else ds) =
      (get_column_names ds).filter (fun m => m != n) := by
  by_cases h : n ∈ get_column_names ds
  · rw [if_pos h, names_dropCol]
  · rw [if_neg h]
    symm
    apply List.filter_eq_self.mpr
    intro a ha
    simp only [bne_iff_ne, ne_eq]
    intro heq
    exact h (heq ▸ ha)

theorem find?_filter_key (l : VaexDF) (n m : String) (h : m ≠ n) :
    (l.filter (fun c => c.1 != n)).find? (fun c => c.1 == m) =
      l.find? (fun c => c.1 == m) := by
  induction l with
  | nil => rfl
  | cons c t ih =>
    rw [List.filter_cons]
    by_cases hcm : c.1 = m
    · have h1 : (c.1 != n) = true := by simp [hcm, h]
      rw [if_pos h1, List.find?_cons_of_pos _ (by simp [hcm]),
        List.find?_cons_of_pos _ (by simp [hcm])]
    · by_cases hcn : c.1 = n
      · have h1 : (c.1 != n) = false := by simp [hcn]
        rw [if_neg (by simp [h1]), ih, List.find?_cons_of_neg _ (by simp [hcm])]
      · have h1 : (c.1 != n) = true := by simp [hcn]
        rw [if_pos h1, List.find?_cons_of_neg _ (by simp [hcm]),
          List.find?_cons_of_neg _ (by simp [hcm])]
        exact ih

theorem getCol_dropCol_ne (ds : VaexDF) (n m : String) (h : m ≠ n) :
    getCol (dropCol ds n) m = getCol ds m := by
  unfold getCol dropCol
  rw [find?_filter_key ds n m h]

theorem getCol_dropIf_ne (ds : VaexDF) (n m : String) (h : m ≠ n) :
    getCol (if n ∈ get_column_names ds then dropCol ds n else ds) m = getCol ds m := by
  by_cases hmem : n ∈ get_column_names ds
  · rw [if_pos hmem]
    exact getCol_dropCol_ne ds n m h
  · rw [if_neg hmem]

theorem getCol_eq_none (ds : VaexDF) (n : String) :
    getCol ds n = none ↔ n ∉ get_column_names ds := by
  unfold getCol get_column_names
  rw [Option.map_eq_none', List.find?_eq_none]
  constructor
  · intro h hmem
    obtain ⟨c, hc, hcn⟩ := List.mem_map.mp hmem
    exact (h c hc) (by simp [hcn])
  · intro h c hc
    simp only [beq_iff_eq]
    intro hcn
    exact h (List.mem_map.mpr ⟨c, hc, hcn⟩)

theorem getCol_mem (ds : VaexDF) (n : String) (h : n ∈ get_column_names ds) :
    ∃ v, getCol ds n = some v := by
  cases hg : getCol ds n with
  | some v => exact ⟨v, rfl⟩
  | none => exact absurd h ((getCol_eq_none ds n).mp hg)

theorem names_add_column (ds : VaexDF) (n : String) (v : List ℚ) :
    get_column_names (add_column ds n v) = get_column_names ds ++ [n] := by
  simp [add_column, get_column_names]

theorem getCol_add_ne (ds : VaexDF) (n : String) (v : List ℚ) (m : String)
    (h : m ≠ n) : getCol (add_column ds n v) m = getCol ds m := by
  unfold getCol add_column
  induction ds with
  | nil =>
    have hnm : (n == m) = false := beq_eq_false_iff_ne.mpr (fun hh => h hh.symm)
    simp [List.find?, hnm]
  | cons c t ih =>
    by_cases hcm : c.1 = m
    · rw [List.cons_append, List.find?_cons_of_pos _ (by simp [hcm]),
        List.find?_cons_of_pos _ (by simp [hcm])]
    · rw [List.cons_append, List.find?_cons_of_neg _ (by simp [hcm]),
        List.find?_cons_of_neg _ (by simp [hcm])]
      exact ih

theorem getCol_add_self (ds : VaexDF) (n : String) (v : List ℚ)
    (h : getCol ds n = none) : getCol (add_column ds n v) n = some v := by
  unfold getCol add_column
  unfold getCol at h
  rw [Option.map_eq_none'] at h
  induction ds with
  | nil => simp [List.find?]
  | cons c t ih =>
    rw [List.find?_eq_none] at h
    have hc : ¬ (c.1 == n) = true := h c (by simp)
    rw [List.cons_append, List.find?_cons_of_neg _ (by exact hc)]
    apply ih
    rw [List.find?_eq_none]
    intro a ha
    exact h a (by simp [ha])

theorem names_selectNames (ds : VaexDF) (ns : List String)
    (h : ∀ n ∈ ns, n ∈ get_column_names ds) :
    get_column_names (selectNames ds ns) = ns := by
  induction ns with
  | nil => rfl
  | cons n t ih =>
    obtain ⟨v, hv⟩ := getCol_mem ds n (h n (by simp))
    simp only [selectNames, List.filterMap_cons, hv, Option.map_some'] at ih ⊢
    simp only [get_column_names, List.map_cons] at ih ⊢
    rw [ih (fun m hm => h m (by simp [hm]))]

/-- Full characterization of `add_wcs` on a table with X and Y columns: the
final state of the mutated input (drops of any pre-existing RA/DEC, new RA and
DEC appended at the end) and the returned reordered view. -/
theorem add_wcs_split (wcs : ℚ → ℚ → ℚ × ℚ) (ds : VaexDF)
    (hx : "X" ∈ get_column_names ds) (hy : "Y" ∈ get_column_names ds) :
    ∃ mutDf view xs ys,
      add_wcs wcs ds = some (mutDf, view) ∧
      getCol ds "X" = some xs ∧ getCol ds "Y" = some ys ∧
      get_column_names mutDf =
        (((get_column_names ds).filter (fun m => m != "RA")).filter
          (fun m => m != "DEC")) ++ ["RA", "DEC"] ∧
      getCol mutDf "RA" = some (List.zipWith (fun a b => (wcs a b).1) xs ys) ∧
      getCol mutDf "DEC" = some (List.zipWith (fun a b => (wcs a b).2) xs ys) ∧
      get_column_names view =
        ["RA", "DEC", "X", "Y"] ++
          (get_column_names ds).filter (fun n => !(firstcols.contains n)) ∧
      getCol view "RA" = some (List.zipWith (fun a b => (wcs a b).1) xs ys) ∧
      getCol view "DEC" = some (List.zipWith (fun a b => (wcs a b).2) xs ys) := by
  obtain ⟨xs, hxs⟩ := getCol_mem ds "X" hx
  obtain ⟨ys, hys⟩ := getCol_mem ds "Y" hy
  simp only [add_wcs]
  set D1 : VaexDF := if "RA" ∈ get_column_names ds then dropCol ds "RA" else ds with hD1
  set D2 : VaexDF := if "DEC" ∈ get_column_names D1 then dropCol D1 "DEC" else D1 with hD2
  have hgX : getCol D2 "X" = some xs := by
    rw [hD2, getCol_dropIf_ne _ _ _ (by decide), hD1,
      getCol_dropIf_ne _ _ _ (by decide), hxs]
  have hgY : getCol D2 "Y" = some ys := by
    rw [hD2, getCol_dropIf_ne _ _ _ (by decide), hD1,
      getCol_dropIf_ne _ _ _ (by decide), hys]
  rw [hgX, hgY]
  have hn1 : get_column_names D1 = (get_column_names ds).filter (fun m => m != "RA") := by
    rw [hD1]
    exact names_dropIf ds "RA"
  have hn2 : get_column_names D2 =
      ((get_column_names ds).filter (fun m => m != "RA")).filter (fun m => m != "DEC") := by
    rw [hD2, names_dropIf, hn1]
  have hRAnot : "RA" ∉ get_column_names D2 := by
    rw [hn2]
    intro hmem
    have h1 := (List.mem_filter.mp (List.mem_filter.mp hmem).1).2
    simp at h1
  have hDECnot : "DEC" ∉ get_column_names D2 := by
    rw [hn2]
    intro hmem
    have h1 := (List.mem_filter.mp hmem).2
    simp at h1
  have hRAnone : getCol D2 "RA" = none := (getCol_eq_none _ _).mpr hRAnot
  have hDECnone : getCol D2 "DEC" = none := (getCol_eq_none _ _).mpr hDECnot
  have hg3RA : getCol (add_column (add_column D2 "RA"
      (List.zipWith (fun a b => (wcs a b).1) xs ys)) "DEC"
      (List.zipWith (fun a b => (wcs a b).2) xs ys)) "RA" =
      some (List.zipWith (fun a b => (wcs a b).1) xs ys) := by
    rw [getCol_add_ne _ _ _ _ (by decide)]
    exact getCol_add_self _ _ _ hRAnone
  have hg3DEC : getCol (add_column (add_column D2 "RA"
      (List.zipWith (fun a b => (wcs a b).1) xs ys)) "DEC"
      (List.zipWith (fun a b => (wcs a b).2) xs ys)) "DEC" =
      some (List.zipWith (fun a b => (wcs a b).2) xs ys) := by
    apply getCol_add_self
    rw [getCol_add_ne _ _ _ _ (by decide)]
    exact hDECnone
  have hn3 : get_column_names (add_column (add_column D2 "RA"
      (List.zipWith (fun a b => (wcs a b).1) xs ys)) "DEC"
      (List.zipWith (fun a b => (wcs a b).2) xs ys)) =
      (get_column_names D2 ++ ["RA"]) ++ ["DEC"] := by
    rw [names_add_column, names_add_column]
  refine ⟨_, _, xs, ys, rfl, hxs, hys, ?_, hg3RA, hg3DEC, ?_, ?_, ?_⟩
  · rw [hn3, hn2, List.append_assoc]
    rfl
  · have hmemNS : ∀ n ∈ firstcols ++
        (get_column_names (add_column (add_column D2 "RA"
          (List.zipWith (fun a b => (wcs a b).1) xs ys)) "DEC"
          (List.zipWith (fun a b => (wcs a b).2) xs ys))).filter
          (fun n => !(firstcols.contains n)),
        n ∈ get_column_names (add_column (add_column D2 "RA"
          (List.zipWith (fun a b => (wcs a b).1) xs ys)) "DEC"
          (List.zipWith (fun a b => (wcs a b).2) xs ys)) := by
      intro n hn
      rcases List.mem_append.mp hn with hn | hn
      · rw [hn3]
        simp only [firstcols, List.mem_cons, List.not_mem_nil, or_false] at hn
        rcases hn with rfl | rfl | rfl | rfl
        · simp
        · simp
        · have hmem2 : "X" ∈ get_column_names D2 := by
            rw [hn2]
            exact List.mem_filter.mpr ⟨List.mem_filter.mpr ⟨hx, by decide⟩, by decide⟩
          simp [hmem2]
        · have hmem2 : "Y" ∈ get_column_names D2 := by
            rw [hn2]
            exact List.mem_filter.mpr ⟨List.mem_filter.mpr ⟨hy, by decide⟩, by decide⟩
          simp [hmem2]
      · exact (List.mem_filter.mp hn).1
    rw [names_selectNames _ _ hmemNS]
    have hfilter : (get_column_names (add_column (add_column D2 "RA"
        (List.zipWith (fun a b => (wcs a b).1) xs ys)) "DEC"
        (List.zipWith (fun a b => (wcs a b).2) xs ys))).filter
        (fun n => !(firstcols.contains n)) =
        (get_column_names ds).filter (fun n => !(firstcols.contains n)) := by
      rw [hn3, hn2, List.filter_append, List.filter_append]
      have hra : (["RA"].filter (fun n => !(firstcols.contains n))) = [] := by decide
      have hdec : (["DEC"].filter (fun n => !(firstcols.contains n))) = [] := by decide
      rw [hra, hdec, List.append_nil, List.append_nil, List.filter_filter,
        List.filter_filter]
      apply List.filter_congr
      intro a _
      by_cases h1 : a = "RA"
      · subst h1
        decide
      · by_cases h2 : a = "DEC"
        · subst h2
          decide
        · have b1 : (a != "RA") = true := bne_iff_ne.mpr h1
          have b2 : (a != "DEC") = true := bne_iff_ne.mpr h2
          simp [b1, b2]
    rw [hfilter]
    rfl
  · show getCol (selectNames _ _) "RA" = _
    unfold selectNames
    have hns : firstcols ++ (get_column_names (add_column (add_column D2 "RA"
        (List.zipWith (fun a b => (wcs a b).1) xs ys)) "DEC"
        (List.zipWith (fun a b => (wcs a b).2) xs ys))).filter
        (fun n => !(firstcols.contains n)) =
        "RA" :: "DEC" :: "X" :: "Y" :: (get_column_names (add_column (add_column D2 "RA"
        (List.zipWith (fun a b => (wcs a b).1) xs ys)) "DEC"
        (List.zipWith (fun a b => (wcs a b).2) xs ys))).filter
        (fun n => !(firstcols.contains n)) := rfl
    rw [hns, List.filterMap_cons, hg3RA]
    simp only [Option.map_some']
    unfold getCol
    rw [List.find?_cons_of_pos _ (by rfl)]
    rfl
  · show getCol (selectNames _ _) "DEC" = _
    unfold selectNames
    have hns : firstcols ++ (get_column_names (add_column (add_column D2 "RA"
        (List.zipWith (fun a b => (wcs a b).1) xs ys)) "DEC"
        (List.zipWith (fun a b => (wcs a b).2) xs ys))).filter
        (fun n => !(firstcols.contains n)) =
        "RA" :: "DEC" :: "X" :: "Y" :: (get_column_names (add_column (add_column D2 "RA"
        (List.zipWith (fun a b => (wcs a b).1) xs ys)) "DEC"
        (List.zipWith (fun a b => (wcs a b).2) xs ys))).filter
        (fun n => !(firstcols.contains n)) := rfl
    rw [hns, List.filterMap_cons, hg3RA, List.filterMap_cons, hg3DEC]
    simp only [Option.map_some']
    unfold getCol
    rw [List.find?_cons_of_neg _ (by simp), List.find?_cons_of_pos _ (by rfl)]
    rfl

/-! ### Claims C6, C10: the coordinate augmenter -/

/-- Claim C6 (confirmed): for every table with X and Y columns, the view
returned by `add_wcs` has `RA, DEC, X, Y` as its first four columns, followed
by all remaining original columns in their original relative order; any
pre-existing RA/DEC columns are gone from the tail and the RA and DEC columns
hold the freshly computed transform of the X and Y columns. -/
theorem c6_augmented_view (wcs : ℚ → ℚ → ℚ × ℚ) (ds : VaexDF)
    (hx : "X" ∈ get_column_names ds) (hy : "Y" ∈ get_column_names ds) :
    ∃ mutDf view xs ys,
      add_wcs wcs ds = some (mutDf, view) ∧
      getCol ds "X" = some xs ∧ getCol ds "Y" = some ys ∧
      get_column_names view =
        ["RA", "DEC", "X", "Y"] ++
          (get_column_names ds).filter (fun n => !(firstcols.contains n)) ∧
      getCol view "RA" = some (List.zipWith (fun a b => (wcs a b).1) xs ys) ∧
      getCol view "DEC" = some (List.zipWith (fun a b => (wcs a b).2) xs ys) := by
  obtain ⟨m, v, xs, ys, h1, h2, h3, _, _, _, h7, h8, h9⟩ := add_wcs_split wcs ds hx hy
  exact ⟨m, v, xs, ys, h1, h2, h3, h7, h8, h9⟩

/-- Claim C6 witness: a concrete four-column table with a stale RA column. -/
theorem c6_witness :
    ("X" ∈ get_column_names
        [("X", [(1 : ℚ), 2]), ("Y", [3, 4]), ("F475W_chip1_COUNT", [5, 6]), ("RA", [0, 0])] ∧
     "Y" ∈ get_column_names
        [("X", [(1 : ℚ), 2]), ("Y", [3, 4]), ("F475W_chip1_COUNT", [5, 6]), ("RA", [0, 0])]) ∧
    (∃ mutDf view xs ys,
      add_wcs (fun a b => (a + b, a - b))
          [("X", [(1 : ℚ), 2]), ("Y", [3, 4]), ("F475W_chip1_COUNT", [5, 6]), ("RA", [0, 0])] =
        some (mutDf, view) ∧
      getCol [("X", [(1 : ℚ), 2]), ("Y", [3, 4]), ("F475W_chip1_COUNT", [5, 6]), ("RA", [0, 0])]
          "X" = some xs ∧
      getCol [("X", [(1 : ℚ), 2]), ("Y", [3, 4]), ("F475W_chip1_COUNT", [5, 6]), ("RA", [0, 0])]
          "Y" = some ys ∧
      get_column_names view =
        ["RA", "DEC", "X", "Y"] ++
          (get_column_names
            [("X", [(1 : ℚ), 2]), ("Y", [3, 4]), ("F475W_chip1_COUNT", [5, 6]),
              ("RA", [0, 0])]).filter (fun n => !(firstcols.contains n)) ∧
      getCol view "RA" =
        some (List.zipWith (fun a b => ((fun a b => (a + b, a - b)) a b).1) xs ys) ∧
      getCol view "DEC" =
        some (List.zipWith (fun a b => ((fun a b => (a + b, a - b)) a b).2) xs ys)) :=
  ⟨⟨by decide, by decide⟩,
    c6_augmented_view (fun a b => (a + b, a - b))
      [("X", [(1 : ℚ), 2]), ("Y", [3, 4]), ("F475W_chip1_COUNT", [5, 6]), ("RA", [0, 0])]
      (by decide) (by decide)⟩

/-- Claim C10 (confirmed): `add_wcs` mutates its input: after it returns, the
input object itself has any pre-existing RA/DEC columns dropped in place and
the newly computed RA and DEC columns appended in place, so the input's column
layout is not preserved. -/
theorem c10_input_mutated (wcs : ℚ → ℚ → ℚ × ℚ) (ds : VaexDF)
    (hx : "X" ∈ get_column_names ds) (hy : "Y" ∈ get_column_names ds) :
    ∃ mutDf view xs ys,
      add_wcs wcs ds = some (mutDf, view) ∧
      getCol ds "X" = some xs ∧ getCol ds "Y" = some ys ∧
      get_column_names mutDf =
        (((get_column_names ds).filter (fun m => m != "RA")).filter
          (fun m => m != "DEC")) ++ ["RA", "DEC"] ∧
      getCol mutDf "RA" = some (List.zipWith (fun a b => (wcs a b).1) xs ys) ∧
      getCol mutDf "DEC" = some (List.zipWith (fun a b => (wcs a b).2) xs ys) := by
  obtain ⟨m, v, xs, ys, h1, h2, h3, h4, h5, h6, _, _, _⟩ := add_wcs_split wcs ds hx hy
  exact ⟨m, v, xs, ys, h1, h2, h3, h4, h5, h6⟩

/-- Claim C10 witness: the concrete table of the C6 witness; the mutated input
ends with the fresh RA and DEC columns and has lost the stale RA column. -/
theorem c10_witness :
    ("X" ∈ get_column_names
        [("X", [(1 : ℚ), 2]), ("Y", [3, 4]), ("F475W_chip1_COUNT", [5, 6]), ("RA", [0, 0])] ∧
     "Y" ∈ get_column_names
        [("X", [(1 : ℚ), 2]), ("Y", [3, 4]), ("F475W_chip1_COUNT", [5, 6]), ("RA", [0, 0])]) ∧
    (∃ mutDf view xs ys,
      add_wcs (fun a b => (a + b, a - b))
          [("X", [(1 : ℚ), 2]), ("Y", [3, 4]), ("F475W_chip1_COUNT", [5, 6]), ("RA", [0, 0])] =
        some (mutDf, view) ∧
      getCol [("X", [(1 : ℚ), 2]), ("Y", [3, 4]), ("F475W_chip1_COUNT", [5, 6]), ("RA", [0, 0])]
          "X" = some xs ∧
      getCol [("X", [(1 : ℚ), 2]), ("Y", [3, 4]), ("F475W_chip1_COUNT", [5, 6]), ("RA", [0, 0])]
          "Y" = some ys ∧
      get_column_names mutDf =
        (((get_column_names
            [("X", [(1 : ℚ), 2]), ("Y", [3, 4]), ("F475W_chip1_COUNT", [5, 6]),
              ("RA", [0, 0])]).filter (fun m => m != "RA")).filter
          (fun m => m != "DEC")) ++ ["RA", "DEC"] ∧
      getCol mutDf "RA" =
        some (List.zipWith (fun a b => ((fun a b => (a + b, a - b)) a b).1) xs ys) ∧
      getCol mutDf "DEC" =
        some (List.zipWith (fun a b => ((fun a b => (a + b, a - b)) a b).2) xs ys)) :=
  ⟨⟨by decide, by decide⟩,
    c10_input_mutated (fun a b => (a + b, a - b))
      [("X", [(1 : ℚ), 2]), ("Y", [3, 4]), ("F475W_chip1_COUNT", [5, 6]), ("RA", [0, 0])]
      (by decide) (by decide)⟩

/-! ### Claim C7: the missing-value sentinel -/

/-- Claim C7 (confirmed): whenever the raw token at a selected position is the
sentinel string `"99.999"`, the loaded table holds a missing value there; in
particular loading the row `"100.5 200.25 99.999"` under the names
`[X, Y, F475W_chip1_COUNT]` yields a null third column for that row (and the
other cells parsed as numbers). -/
theorem c7_sentinel_null :
    (∀ (lines names : List String) (i j : ℕ) (line nm : String),
      lines[i]? = some line → names[j]? = some nm →
      (splitWs line)[j]? = some "99.999" →
      ∃ col, (ascii_to_vaex lines names none)[j]? = some (nm, col) ∧
        col[i]? = some none) ∧
    ascii_to_vaex ["100.5 200.25 99.999"] ["X", "Y", "F475W_chip1_COUNT"] none =
      [("X", [some (201 / 2)]), ("Y", [some (801 / 4)]), ("F475W_chip1_COUNT", [none])] := by
  constructor
  · intro lines names i j line nm hl hn ht
    have hj : j < names.length := (List.getElem?_eq_some_iff.mp hn).1
    have hzip : (names.zip (List.range names.length))[j]? = some (nm, j) := by
      rw [List.getElem?_zip_eq_some]
      exact ⟨hn, by rw [List.getElem?_range hj]⟩
    refine ⟨lines.map (fun line => (splitWs line)[j]?.bind parseCell), ?_, ?_⟩
    · simp only [ascii_to_vaex, Option.getD_none]
      rw [List.getElem?_map, hzip]
      rfl
    · rw [List.getElem?_map, hl]
      simp only [Option.map_some']
      rw [ht]
      rfl
  · decide

/-- Claim C7 witness: the sentinel in the spec's example row becomes null. -/
theorem c7_witness :
    ((["100.5 200.25 99.999"] : List String)[0]? = some "100.5 200.25 99.999" ∧
     (["X", "Y", "F475W_chip1_COUNT"] : List String)[2]? = some "F475W_chip1_COUNT" ∧
     (splitWs "100.5 200.25 99.999")[2]? = some "99.999") ∧
    (∃ col,
      (ascii_to_vaex ["100.5 200.25 99.999"] ["X", "Y", "F475W_chip1_COUNT"] none)[2]? =
        some ("F475W_chip1_COUNT", col) ∧ col[0]? = some none) :=
  ⟨⟨by decide, by decide, by decide⟩,
    c7_sentinel_null.1 ["100.5 200.25 99.999"] ["X", "Y", "F475W_chip1_COUNT"] 0 2
      "100.5 200.25 99.999" "F475W_chip1_COUNT" (by decide) (by decide) (by decide)⟩
